import Mathlib

/-!
# Verification of the graph-rag Hybrid Retrieval & Graph Expansion Engine

This file gives a shallow embedding, in Lean 4, of the core retrieval and
extraction code of the repository (`src/services/entity_extractor.py` and
`src/services/retrieval.py`), and proves or refutes the frozen claims about
it.

Modelling conventions:
* Python strings are `String`; Python dicts used as string-keyed maps whose
  values are only ever read back as strings are association lists
  `List (String × String)` with dict-style update (overwrite in place,
  insert at the end).
* Python floats are embedded as `ℚ`; every score constant appearing in the
  code (`0.05`, `0.4`, `0.5`, `0.6`, `1.0`) is exactly representable and all
  comparisons proved here are far from any double-rounding boundary.
* Calls to external collaborators (the graph store, the vector store, the
  LLM) are oracle parameters: a graph-store pattern query becomes a function
  from the queried vertex id to the list of decoded rows; a failed call is
  behaviourally identical to a successful call returning no rows, because
  the code swallows the exception and continues.
* Bounded loops whose termination in Python rests on the data (the BFS work
  queue, the character scans of the JSON repair, the recursive-descent JSON
  check) are embedded with an explicit fuel argument that is structurally
  recursive, so that every definition evaluates by kernel reduction. Each
  recursive call strictly shrinks its list argument, so fuel no smaller than
  the length of that list (the value always supplied) can never run out; the
  fuel-exhaustion branches are dead code kept only to satisfy structural
  recursion.
-/

/-! ## Association-list helpers (Python dict as string map) -/

/-- First-match lookup in an association list: `m[k]` / `m.get(k)`. -/
def lookup_str {α : Type} : List (String × α) → String → Option α
  | [], _ => none
  | (k', v) :: rest, k => if k' = k then some v else lookup_str rest k

/-- Dict-style assignment `m[k] = v`: overwrite the existing binding in
place, else append a new binding (Python dicts keep insertion order). -/
def set_key : List (String × String) → String → String → List (String × String)
  | [], k, v => [(k, v)]
  | (k', v') :: rest, k, v =>
      if k' = k then (k, v) :: rest else (k', v') :: set_key rest k v

/-- ASCII lower-casing of one character, what Python's `str.lower` does on
the ASCII strings handled here. -/
def char_lower (c : Char) : Char :=
  if 'A' ≤ c ∧ c ≤ 'Z' then Char.ofNat (c.toNat + 32) else c

/-- Python's `str.lower()` (ASCII). -/
def str_lower (s : String) : String := String.mk (s.data.map char_lower)

/-! ## Extraction pipeline data model (`entity_extractor.py`) -/

/-- `Entity` (pydantic model): an extracted entity.  The `properties` values
are opaque to every operation modelled here, so they are embedded as
strings. -/
structure Entity where
  name : String
  type : String
  description : String
  properties : List (String × String)
deriving DecidableEq

/-- `Relationship` (pydantic model): an extracted relationship. -/
structure Relationship where
  source : String
  target : String
  relation_type : String
  description : String
  weight : ℚ
  properties : List (String × String)
deriving DecidableEq

/-- `ExtractionResult` (pydantic model). -/
structure ExtractionResult where
  entities : List Entity
  relationships : List Relationship
  source_text : String
  chunk_id : String
deriving DecidableEq

/-- The dedup key of `merge_results`:
`f"{entity.name.lower()}:{entity.type.lower()}"`. -/
def entity_key (e : Entity) : String :=
  str_lower e.name ++ ":" ++ str_lower e.type

/-- One step of the entity-folding loop of `EntityExtractor.merge_results`:
if the key is new the entity is inserted, otherwise the kept entity has the
duplicate's description appended when that description is non-empty and
differs from the kept one (`if entity.description and
entity.description != existing.description`). -/
def fold_entity (m : List (String × Entity)) (e : Entity) : List (String × Entity) :=
  if (lookup_str m (entity_key e)).isSome then
    m.map (fun kv =>
      if kv.1 = entity_key e then
        (kv.1,
          if e.description ≠ "" ∧ e.description ≠ kv.2.description then
            { kv.2 with description := kv.2.description ++ "; " ++ e.description }
          else kv.2)
      else kv)
  else m ++ [(entity_key e, e)]

/-- The dedup key for relationships:
`f"{rel.source.lower()}-{rel.relation_type.lower()}-{rel.target.lower()}"`. -/
def rel_key (r : Relationship) : String :=
  str_lower r.source ++ "-" ++ str_lower r.relation_type ++ "-" ++ str_lower r.target

/-- Relationship dedup loop of `merge_results`: keep the first occurrence of
every composite key. -/
def dedup_rels : List Relationship → List String → List Relationship
  | [], _ => []
  | r :: rest, seen =>
      if rel_key r ∈ seen then dedup_rels rest seen
      else r :: dedup_rels rest (rel_key r :: seen)

/-- `EntityExtractor.merge_results`: fold all entities of all results into a
key-indexed map (insertion-ordered, as a Python dict is), concatenate all
relationships and drop duplicate composite keys keeping first occurrences. -/
def merge_results (results : List ExtractionResult) : ExtractionResult :=
  let entity_map := results.foldl (fun m r => r.entities.foldl fold_entity m) []
  let relationships := results.foldl (fun acc r => acc ++ r.relationships) []
  { entities := entity_map.map (fun kv => kv.2)
    relationships := dedup_rels relationships []
    source_text := ""
    chunk_id := "" }

/-! ## JSON repair and parse protocol (`EntityExtractor._fix_json`, `_parse_response`)

The repair pass is three regex substitutions followed by a bracket-balance
scan.  The substitutions are embedded as character-list scans; Python's
`\s` is modelled as ASCII whitespace (the inputs of interest contain no
Unicode whitespace). -/

/-- ASCII whitespace, the characters Python's `\s` and `str.rstrip` treat as
space on the inputs considered here. -/
def is_py_space (c : Char) : Bool :=
  c = ' ' ∨ c = '\t' ∨ c = '\n' ∨ c = '\r' ∨ c = '\x0b' ∨ c = '\x0c'

/-- First substitution: drop every occurrence of a code fence
(three backticks, optionally followed by the word json, then a greedy run
of whitespace).  Fuel-structural; fuel equal to the list length suffices
since every step consumes at least one character. -/
def strip_fences : Nat → List Char → List Char
  | 0, l => l
  | fuel + 1, l =>
    match l with
    | '`' :: '`' :: '`' :: 'j' :: 's' :: 'o' :: 'n' :: rest =>
        strip_fences fuel (rest.dropWhile is_py_space)
    | '`' :: '`' :: '`' :: rest =>
        strip_fences fuel (rest.dropWhile is_py_space)
    | c :: rest => c :: strip_fences fuel rest
    | [] => []

/-- Second substitution: drop every `//` line comment up to (excluding) the
next newline. -/
def strip_line_comments : Nat → List Char → List Char
  | 0, l => l
  | fuel + 1, l =>
    match l with
    | '/' :: '/' :: rest =>
        strip_line_comments fuel (rest.dropWhile (fun c => c ≠ '\n'))
    | c :: rest => c :: strip_line_comments fuel rest
    | [] => []

/-- Third substitution: a comma followed by whitespace and a closing brace
or bracket is replaced by that closer alone; scanning resumes after the
closer, exactly as `re.sub` does. -/
def strip_trailing_commas : Nat → List Char → List Char
  | 0, l => l
  | fuel + 1, l =>
    match l with
    | ',' :: rest =>
        (match rest.dropWhile is_py_space with
         | '\x7d' :: r => '\x7d' :: strip_trailing_commas fuel r
         | ']' :: r => ']' :: strip_trailing_commas fuel r
         | _ => ',' :: strip_trailing_commas fuel rest)
    | c :: rest => c :: strip_trailing_commas fuel rest
    | [] => []

/-- State of the string-aware bracket scan of `_fix_json`: the stack of
still-open brackets with the most recently opened at the head (the order
Python's `reversed(stack)` produces), the in-string flag and the
escape flag. -/
structure ScanState where
  stack : List Char
  in_string : Bool
  escape : Bool

/-- One character of the bracket scan, a direct transcription of the
`for ch in text` loop body. -/
def scan_step (s : ScanState) (ch : Char) : ScanState :=
  if s.escape then { s with escape := false }
  else if ch = '\\' then { s with escape := true }
  else if ch = '"' then { s with in_string := !s.in_string }
  else if s.in_string then s
  else if ch = '\x7b' ∨ ch = '[' then { s with stack := ch :: s.stack }
  else if ch = '\x7d' then
    match s.stack with
    | '\x7b' :: rest => { s with stack := rest }
    | _ => s
  else if ch = ']' then
    match s.stack with
    | '[' :: rest => { s with stack := rest }
    | _ => s
  else s

/-- The full bracket scan: unclosed-opener stack (innermost first) and
whether the scan ended inside a string. -/
def scan_brackets (cs : List Char) : List Char × Bool :=
  let s := cs.foldl scan_step ⟨[], false, false⟩
  (s.stack, s.in_string)

/-- Python's `str.rstrip()` on ASCII whitespace. -/
def rstrip_chars (cs : List Char) : List Char :=
  (cs.reverse.dropWhile is_py_space).reverse

/-- Python's `text.endswith(single quote char)`: the last character is a
double quote (false on the empty string). -/
def ends_with_quote (cs : List Char) : Bool :=
  match cs.getLast? with
  | some c => c = '"'
  | none => false

/-- `EntityExtractor._fix_json`: the three substitutions, then, when more
openers than closers were counted, append the missing closers innermost
first; if the scan ended mid-string, right-strip, close the string unless
the text already ends with a quote, and append the closers once more. -/
def fix_json (s : String) : String :=
  let t1 := String.mk (strip_fences s.data.length s.data)
  let t2 := String.mk (strip_line_comments t1.data.length t1.data)
  let t3 := String.mk (strip_trailing_commas t2.data.length t2.data)
  let cs := t3.data
  let opens := cs.count '\x7b' + cs.count '['
  let closes := cs.count '\x7d' + cs.count ']'
  if closes < opens then
    let scanned := scan_brackets cs
    let closers := String.mk (scanned.1.map (fun c => if c = '[' then ']' else '\x7d'))
    let t4 := t3 ++ closers
    if scanned.2 then
      let t5 := String.mk (rstrip_chars t4.data)
      let t6 := if ends_with_quote t5.data then t5 else t5 ++ "\""
      t6 ++ closers
    else t4
  else t3

/-! A recursive-descent JSON acceptance check, modelling which strings
Python's `json.loads` parses (strict mode; the `NaN`/`Infinity` extension
is irrelevant to the inputs considered and omitted). -/

/-- The four JSON whitespace characters. -/
def json_ws (c : Char) : Bool :=
  c = ' ' ∨ c = '\t' ∨ c = '\n' ∨ c = '\r'

/-- Skip JSON whitespace. -/
def skip_ws (l : List Char) : List Char := l.dropWhile json_ws

/-- Hexadecimal digit test for `\u` escapes. -/
def is_hex (c : Char) : Bool :=
  c.isDigit ∨ ('a' ≤ c ∧ c ≤ 'f') ∨ ('A' ≤ c ∧ c ≤ 'F')

/-- Accept the remainder of a JSON string after its opening quote, returning
the rest of the input. -/
def json_string_rest : List Char → Option (List Char)
  | [] => none
  | '"' :: r => some r
  | '\\' :: 'u' :: h1 :: h2 :: h3 :: h4 :: r =>
      if is_hex h1 ∧ is_hex h2 ∧ is_hex h3 ∧ is_hex h4 then json_string_rest r else none
  | '\\' :: e :: r =>
      if e = '"' ∨ e = '\\' ∨ e = '/' ∨ e = 'b' ∨ e = 'f' ∨ e = 'n' ∨ e = 'r' ∨ e = 't'
      then json_string_rest r else none
  | c :: r => if 0x20 ≤ c.toNat then json_string_rest r else none

/-- Drop a run of decimal digits. -/
def drop_digits (l : List Char) : List Char := l.dropWhile Char.isDigit

/-- Accept an optional JSON fraction part. -/
def json_frac : List Char → Option (List Char)
  | '.' :: c :: r => if c.isDigit then some (drop_digits r) else none
  | '.' :: [] => none
  | l => some l

/-- Accept an optional JSON exponent part. -/
def json_exp : List Char → Option (List Char)
  | 'e' :: '+' :: c :: r => if c.isDigit then some (drop_digits r) else none
  | 'e' :: '-' :: c :: r => if c.isDigit then some (drop_digits r) else none
  | 'e' :: c :: r => if c.isDigit then some (drop_digits r) else none
  | 'E' :: '+' :: c :: r => if c.isDigit then some (drop_digits r) else none
  | 'E' :: '-' :: c :: r => if c.isDigit then some (drop_digits r) else none
  | 'E' :: c :: r => if c.isDigit then some (drop_digits r) else none
  | l => some l

/-- Accept a JSON number. -/
def json_number (l : List Char) : Option (List Char) :=
  let l1 := match l with | '-' :: r => r | _ => l
  let intRest : Option (List Char) :=
    match l1 with
    | '0' :: r => some r
    | c :: r => if c.isDigit then some (drop_digits r) else none
    | [] => none
  match intRest with
  | none => none
  | some r =>
    match json_frac r with
    | none => none
    | some r2 => json_exp r2

/-- Parsing modes of the recursive descent: a value, an object body right
after the brace, an object member, an array body right after the bracket,
an array element. -/
inductive JMode
  | value
  | objBody
  | member
  | arrBody
  | element

/-- The recursive descent itself, structurally recursive on fuel; on success
it returns the unconsumed rest of the input.  The fuel supplied by
`json_valid` is far larger than the maximal recursion depth, which consumes
at most three units of fuel per input character. -/
def jparse : Nat → JMode → List Char → Option (List Char)
  | 0, _, _ => none
  | fuel + 1, JMode.value, l =>
    (match skip_ws l with
     | 'n' :: 'u' :: 'l' :: 'l' :: r => some r
     | 't' :: 'r' :: 'u' :: 'e' :: r => some r
     | 'f' :: 'a' :: 'l' :: 's' :: 'e' :: r => some r
     | '"' :: r => json_string_rest r
     | '\x7b' :: r => jparse fuel JMode.objBody (skip_ws r)
     | '[' :: r => jparse fuel JMode.arrBody (skip_ws r)
     | l2 => json_number l2)
  | fuel + 1, JMode.objBody, l =>
    (match l with
     | '\x7d' :: r => some r
     | _ => jparse fuel JMode.member l)
  | fuel + 1, JMode.member, l =>
    (match l with
     | '"' :: r =>
       (match json_string_rest r with
        | none => none
        | some r1 =>
          (match skip_ws r1 with
           | ':' :: r2 =>
             (match jparse fuel JMode.value r2 with
              | none => none
              | some r3 =>
                (match skip_ws r3 with
                 | ',' :: r4 => jparse fuel JMode.member (skip_ws r4)
                 | '\x7d' :: r4 => some r4
                 | _ => none))
           | _ => none))
     | _ => none)
  | fuel + 1, JMode.arrBody, l =>
    (match l with
     | ']' :: r => some r
     | _ => jparse fuel JMode.element l)
  | fuel + 1, JMode.element, l =>
    (match jparse fuel JMode.value l with
     | none => none
     | some r =>
       (match skip_ws r with
        | ',' :: r2 => jparse fuel JMode.element (skip_ws r2)
        | ']' :: r2 => some r2
        | _ => none))

/-- Acceptance of a whole JSON document: one value, then only whitespace. -/
def json_valid (s : String) : Bool :=
  match jparse (4 * s.length + 8) JMode.value s.data with
  | some r => (skip_ws r).isEmpty
  | none => false

/-- The span the regex `\x7b[\s\S]*\x7d` of `_parse_response` extracts: from
the first opening brace through the last closing brace of the response, or
nothing when no closing brace follows an opening brace. -/
def extract_json_span (s : String) : Option String :=
  let suff := s.data.dropWhile (fun c => c ≠ '\x7b')
  let upto := (suff.reverse.dropWhile (fun c => c ≠ '\x7d')).reverse
  if upto.isEmpty then none else some (String.mk upto)

/-- `EntityExtractor._parse_response`, up to the point where parsed JSON
data is obtained: locate the brace span, try a direct parse, then one
repaired parse; `none` is the give-up path on which the method returns the
empty `ExtractionResult`, `some s` carries the JSON text that parsed
successfully (from which the entity and relationship lists are then read). -/
def parse_response (response : String) : Option String :=
  match extract_json_span response with
  | none => none
  | some raw =>
    if json_valid raw then some raw
    else if json_valid (fix_json raw) then some (fix_json raw) else none

/-- The truncated LLM response of the JSON-repair claim: an open object, an
open array, an open object and an unterminated string, with no closing
brace anywhere. -/
def c2_input : String := "\x7b\"entities\": [\x7b\"name\": \"X"

/-- What `_fix_json` actually produces on `c2_input`: the missing closers
are appended first (landing inside the still-open string), then the string
is closed, then the closers are appended once more. -/
def c2_repaired : String := "\x7b\"entities\": [\x7b\"name\": \"X\x7d]\x7d\"\x7d]\x7d"

/-! ## Retrieval data model (`retrieval.py`) -/

/-- `RetrievalResult` dataclass; scores are embedded as rationals. -/
structure RetrievalResult where
  id : String
  name : String
  type : String
  score : ℚ
  text : String
  is_entity : Bool
  properties : List (String × String)
deriving DecidableEq

/-- `GraphNode` dataclass. -/
structure GraphNode where
  id : String
  name : String
  type : String
  properties : List (String × String)
deriving DecidableEq

/-- `GraphEdge` dataclass (its `properties` field is always left at the
default empty dict by the expansion code). -/
structure GraphEdge where
  source : String
  source_name : String
  target : String
  target_name : String
  type : String
  properties : List (String × String)
deriving DecidableEq

/-- `GraphContext` dataclass: ordered nodes and edges. -/
structure GraphContext where
  nodes : List GraphNode
  edges : List GraphEdge
deriving DecidableEq

/-- The derived summary string of `GraphContext`. -/
def GraphContext.summary (gc : GraphContext) : String :=
  "Found " ++ toString gc.nodes.length ++ " related entities and "
    ++ toString gc.edges.length ++ " relationships"

/-! ## Quality gate (`RetrievalService._should_expand_graph`) -/

/-- The scores of the first five results (`[r.score for r in results[:5]]`). -/
def top_scores (results : List RetrievalResult) : List ℚ :=
  (results.take 5).map (fun r => r.score)

/-- Python's `max` over a non-empty list (0 on the empty list, a case the
gate never reaches). -/
def list_max : List ℚ → ℚ
  | [] => 0
  | s :: rest => rest.foldl max s

/-- Python's `sum(l) / len(l)`. -/
def list_avg (l : List ℚ) : ℚ := l.sum / l.length

/-- `RetrievalService._should_expand_graph`: always true for graph search;
false without results; otherwise require a top-5 maximum of at least 0.6 or
a top-5 average of at least 0.5 (`MIN_AVG_SCORE_FOR_GRAPH`). -/
def should_expand_graph (results : List RetrievalResult) (search_type : String) : Bool :=
  if search_type = "graph" then true
  else if results.isEmpty then false
  else if (top_scores results).isEmpty then false
  else decide (3/5 ≤ list_max (top_scores results) ∨ 1/2 ≤ list_avg (top_scores results))

/-! ## Graph expansion (`GraphExpansionService.expand`)

The store oracle maps a vertex id to the decoded rows answered for the
`MATCH (n)-[e]-(m) WHERE id(n) == <id> ... LIMIT 50` query of that id; a
failed or empty query is the empty list (the code logs and continues, and a
node is queried at most once per run, so a fixed function is faithful).
The name oracle plays the same role for `get_entity_name`'s
properties-and-labels query. -/

/-- One decoded row of the expansion query: ids are already strings, the
two property maps and label lists as decoded. -/
structure Row where
  src_id : String
  dst_id : String
  edge_type : String
  src_props : List (String × String)
  dst_props : List (String × String)
  src_labels : List String
  dst_labels : List String
deriving DecidableEq

/-- `GraphExpansionService.PRIORITY_EDGE_TYPES`. -/
def PRIORITY_EDGE_TYPES : List String :=
  ["works_for", "located_in", "founded", "belongs_to", "related_to", "knows", "uses", "has"]

/-- The generic fallback label list used when resolving display names. -/
def fallback_labels : List String :=
  ["person", "entity", "organization", "location", "concept"]

/-- Scan `labels` for the first `<label>.name` key present in `props`. -/
def find_label_name (props : List (String × String)) : List String → Option String
  | [] => none
  | label :: rest =>
      match lookup_str props (label ++ ".name") with
      | some v => some v
      | none => find_label_name props rest

/-- `GraphExpansionService._extract_name_from_props`: try `<label>.name`
for the node's own labels then the fallback labels, then a bare `name`
property, else the supplied default. -/
def extract_name_from_props (props : List (String × String)) (labels : List String)
    (default : String) : String :=
  match find_label_name props (labels ++ fallback_labels) with
  | some v => v
  | none =>
    match lookup_str props "name" with
    | some v => v
    | none => default

/-- `GraphExpansionService.get_entity_name`: resolve a display name for a
seed id through the name oracle, falling back to the id itself when the
query fails or yields nothing. -/
def get_entity_name (name_store : String → Option (List (String × String) × List String))
    (entity_id : String) : String :=
  match name_store entity_id with
  | some pl => extract_name_from_props pl.1 pl.2 entity_id
  | none => entity_id

/-- The mutable state threaded through one expansion run: result lists, the
seen sets (kept as insertion-ordered lists) and the shared id-to-name map. -/
structure ExpState where
  nodes : List GraphNode
  edges : List GraphEdge
  seen_nodes : List String
  seen_edges : List String
  name_map : List (String × String)
deriving DecidableEq

/-- The undirected edge-dedup key recorded in `seen_edges`:
`f"{vid}-{edge_type}-{dst_id}"` for the direction that was appended. -/
def edge_key_of (e : GraphEdge) : String :=
  e.source ++ "-" ++ e.type ++ "-" ++ e.target

/-- The body of the `for row in sorted_rows` loop of `process_node`: skip
empty destinations, resolve display names, refresh the name map, append the
destination as a node unless already expanded, append the edge unless either
direction of its key was recorded, and collect the destination as an
expansion candidate (priority edge types at the front). -/
def process_row (vid : String) (st : ExpState) (nbrs : List String) (row : Row) :
    ExpState × List String :=
  if row.dst_id = "" then (st, nbrs)
  else
    let src_name := extract_name_from_props row.src_props row.src_labels row.src_id
    let dst_name := extract_name_from_props row.dst_props row.dst_labels row.dst_id
    let neighbor_type := row.dst_labels.headD "entity"
    let nm1 := if row.src_id ≠ "" ∧ src_name ≠ "" then set_key st.name_map row.src_id src_name
               else st.name_map
    let nm2 := if dst_name ≠ "" then set_key nm1 row.dst_id dst_name else nm1
    let nodes' :=
      if row.dst_id ∈ st.seen_nodes then st.nodes
      else st.nodes ++ [⟨row.dst_id, dst_name, neighbor_type, row.dst_props⟩]
    let ekey := vid ++ "-" ++ row.edge_type ++ "-" ++ row.dst_id
    let rkey := row.dst_id ++ "-" ++ row.edge_type ++ "-" ++ vid
    let edges' :=
      if ekey ∉ st.seen_edges ∧ rkey ∉ st.seen_edges then
        st.edges ++ [⟨vid, (lookup_str nm2 vid).getD vid, row.dst_id, dst_name, row.edge_type, []⟩]
      else st.edges
    let seen_edges' :=
      if ekey ∉ st.seen_edges ∧ rkey ∉ st.seen_edges then st.seen_edges ++ [ekey]
      else st.seen_edges
    let nbrs' :=
      if row.dst_id ∈ st.seen_nodes then nbrs
      else if row.edge_type ∈ PRIORITY_EDGE_TYPES then row.dst_id :: nbrs
      else nbrs ++ [row.dst_id]
    (⟨nodes', edges', st.seen_nodes, seen_edges', nm2⟩, nbrs')

/-- `process_node`: skip an already-seen id, otherwise mark it seen, query
its incident rows, stably partition them into priority and other rows, and
fold the row body over the partitioned list, returning the expansion
candidates and the updated state. -/
def process_node (store : String → List Row) (vid : String) (st : ExpState) :
    List String × ExpState :=
  if vid ∈ st.seen_nodes then ([], st)
  else
    let st1 : ExpState := { st with seen_nodes := st.seen_nodes ++ [vid] }
    let rows := store vid
    let sorted_rows :=
      rows.filter (fun r => r.edge_type ∈ PRIORITY_EDGE_TYPES)
        ++ rows.filter (fun r => r.edge_type ∉ PRIORITY_EDGE_TYPES)
    let folded := sorted_rows.foldl (fun p row => process_row vid p.1 p.2 row) (st1, [])
    (folded.2, folded.1)

/-- The BFS work loop of `expand`: pop the head of the pending queue, skip
entries beyond the depth bound, process the node and, while below the
bound, enqueue up to fifteen not-yet-seen candidates at the next depth.
Fuel-structural; `expand_fuel` strictly exceeds the possible number of
iterations (see `expand_loop_adequate`). -/
def expand_loop (store : String → List Row) (max_depth : Nat) :
    Nat → List (String × Nat) → ExpState → ExpState
  | 0, _, st => st
  | fuel + 1, pending, st =>
    match pending with
    | [] => st
    | (vid, depth) :: rest =>
      if max_depth < depth then expand_loop store max_depth fuel rest st
      else
        let p := process_node store vid st
        let pending' :=
          if depth < max_depth then
            rest ++ ((p.1.take 15).filter (fun n => n ∉ p.2.seen_nodes)).map
              (fun n => (n, depth + 1))
          else rest
        expand_loop store max_depth fuel pending' p.2

/-- Fuel sufficient for any run: every loop iteration strictly decreases
the measure summing `16 ^ (max_depth + 1 - depth)` over the queue, whose
initial value is at most `10 * 16 ^ max_depth`. -/
def expand_fuel (entity_ids : List String) (max_depth : Nat) : Nat :=
  (entity_ids.take 10).length * 16 ^ max_depth + 1

/-- `GraphExpansionService.expand` up to (and excluding) the final
name-refresh pass: prefetch names of all seed ids that are not already in
the supplied map, seed the queue with the first ten ids at depth 1, and run
the BFS loop. -/
def expand_state (store : String → List Row)
    (name_store : String → Option (List (String × String) × List String))
    (entity_ids : List String) (max_depth : Nat)
    (id_to_name : List (String × String)) : ExpState :=
  let nm := entity_ids.foldl
    (fun m eid =>
      if (lookup_str m eid).isSome then m else set_key m eid (get_entity_name name_store eid))
    id_to_name
  let pending0 := (entity_ids.take 10).map (fun e => (e, 1))
  expand_loop store max_depth (expand_fuel entity_ids max_depth) pending0
    ⟨[], [], [], [], nm⟩

/-- `GraphExpansionService.expand`: the BFS run followed by the post-pass
that re-resolves both display names of every edge from the final name map. -/
def expand (store : String → List Row)
    (name_store : String → Option (List (String × String) × List String))
    (entity_ids : List String) (max_depth : Nat)
    (id_to_name : List (String × String)) : GraphContext :=
  let st := expand_state store name_store entity_ids max_depth id_to_name
  { nodes := st.nodes
    edges := st.edges.map (fun e =>
      { e with
        source_name := (lookup_str st.name_map e.source).getD e.source_name
        target_name := (lookup_str st.name_map e.target).getD e.target_name }) }

/-! ## Graph search (`GraphSearchService.search_entities_by_names`)

The store oracle maps a searched name and a tag to the decoded rows of the
`MATCH (v:<tag>) WHERE v.<tag>.name CONTAINS "<name>" ... LIMIT 3` query; a
failed or unsuccessful query is the empty list (the exception is swallowed
and the loop continues). -/

/-- One decoded row of the name-search query; absent columns are `none`
(Python `row.get` with a default). -/
structure GRow where
  vid : String
  name : Option String
  description : Option String
  rtype : Option String
deriving DecidableEq

/-- The fixed tag list of `search_entities_by_names`. -/
def gs_tags : List String :=
  ["person", "organization", "location", "entity", "concept"]

/-- The body of the per-row loop: skip empty or already-seen vertex ids,
otherwise record the id and append a result whose score is
`1.0 - len(results) * 0.05` at the moment of appending. -/
def gs_row_step (searched_name tag : String)
    (acc : List RetrievalResult × List String) (row : GRow) :
    List RetrievalResult × List String :=
  if row.vid ≠ "" ∧ row.vid ∉ acc.2 then
    (acc.1 ++ [{ id := row.vid
                 name := row.name.getD searched_name
                 type := "entity"
                 score := 1 - (acc.1.length : ℚ) * (1/20)
                 text := row.description.getD ""
                 is_entity := true
                 properties := [("entity_type", row.rtype.getD tag)] }],
      row.vid :: acc.2)
  else acc

/-- `GraphSearchService.search_entities_by_names`: for each of the first
five names, for each tag, fold the row loop over the store's answer,
sharing the result list and the seen-id set across the whole fan-out. -/
def search_entities_by_names (store : String → String → List GRow)
    (names : List String) : List RetrievalResult :=
  ((names.take 5).foldl
      (fun acc name =>
        gs_tags.foldl (fun acc2 tag => (store name tag).foldl (gs_row_step name tag) acc2) acc)
      ([], [])).1

/-! ## Retrieval orchestrator (`RetrievalService.retrieve`)

Each stage's external interaction is an oracle of `Except` kind giving the
stage outcome: `.error e` is the exception caught by that stage's
`try`/`except` (which appends one message to the error list and changes
nothing else), `.ok` carries what the stage produced.  The graph-expansion
stage's `try` block only ever assigns `response.graph_context` (it stays
`none` when no seed entity ids were collected), so its outcome is an
`Option GraphContext`.  Timing is external and not modelled. -/

/-- `RetrievalResponse` dataclass (timing omitted). -/
structure RetrievalResponse where
  success : Bool
  query : String
  results : List RetrievalResult
  graph_context : Option GraphContext
  answer : Option String
  sources : List String
  errors : List String
deriving DecidableEq

/-- The final line of `retrieve`:
`response.success = len(response.errors) == 0 or len(response.results) > 0`. -/
def finalize_response (r : RetrievalResponse) : RetrievalResponse :=
  { r with success := decide (r.errors.length = 0) || decide (0 < r.results.length) }

/-- `RetrievalService.retrieve`: run the searches selected by
`search_type`, force expansion on for graph search (only when that search
did not raise), gate expansion, generate an answer when requested and
context exists, and finally mark the response successful exactly when the
error list is empty or at least one result was obtained. -/
def retrieve (query search_type : String) (expand_graph use_llm : Bool)
    (vec : Except String (List RetrievalResult × List String))
    (gs : Except String (List RetrievalResult))
    (expansion : Except String (Option GraphContext))
    (llm : Except String String) : RetrievalResponse :=
  let r0 : RetrievalResponse :=
    { success := true, query := query, results := [], graph_context := none,
      answer := none, sources := [], errors := [] }
  let r1 :=
    if search_type = "hybrid" ∨ search_type = "vector" then
      match vec with
      | .ok rs => { r0 with results := r0.results ++ rs.1, sources := r0.sources ++ rs.2 }
      | .error e => { r0 with errors := r0.errors ++ ["Vector search error: " ++ e] }
    else r0
  let step2 :=
    if search_type = "graph" then
      match gs with
      | .ok rs => ({ r1 with results := r1.results ++ rs }, true)
      | .error e => ({ r1 with errors := r1.errors ++ ["Graph search error: " ++ e] }, expand_graph)
    else (r1, expand_graph)
  let r2 := step2.1
  let should := step2.2 && should_expand_graph r2.results search_type
  let r3 :=
    if should then
      match expansion with
      | .ok gc => { r2 with graph_context := gc }
      | .error e => { r2 with errors := r2.errors ++ ["Graph expansion error: " ++ e] }
    else r2
  let r4 :=
    if use_llm && (!r3.results.isEmpty || r3.graph_context.isSome) then
      match llm with
      | .ok ans => { r3 with answer := some ans }
      | .error e => { r3 with errors := r3.errors ++ ["LLM error: " ++ e] }
    else r3
  finalize_response r4

/-! ## Specification-side predicates -/

/-- Reachability within a hop bound in the neighbour relation induced by the
graph store's row answers: `x` is reachable from the seed set in at most `n`
hops, one hop being an answered row from a queried id to its `dst_id`. -/
def ReachWithin (store : String → List Row) (seeds : List String) : Nat → String → Prop
  | 0, x => x ∈ seeds
  | n + 1, x => x ∈ seeds ∨ ∃ v, ReachWithin store seeds n v ∧ ∃ r ∈ store v, r.dst_id = x

/-- Two edges carry the same undirected identity: equal type and equal
endpoint pair in either orientation. -/
def same_undirected (a b : GraphEdge) : Prop :=
  a.type = b.type ∧
    ((a.source = b.source ∧ a.target = b.target) ∨
      (a.source = b.target ∧ a.target = b.source))

/-! ## Concrete instances used by counterexamples and witnesses -/

/-- A row from vertex a to vertex b with the given edge type and no
properties or labels. -/
def row_ab (t : String) : Row :=
  { src_id := "a", dst_id := "b", edge_type := t,
    src_props := [], dst_props := [], src_labels := [], dst_labels := [] }

/-- A store in which vertex a has two parallel edges to vertex b (for
example a `mentions` and a `cites` relationship). -/
def store_dup : String → List Row :=
  fun v => if v = "a" then [row_ab "t1", row_ab "t2"] else []

/-- A store in which vertex a has a single `knows` edge to vertex b. -/
def store_ab : String → List Row :=
  fun v => if v = "a" then [row_ab "knows"] else []

/-- A name oracle whose every query fails. -/
def name_store_empty : String → Option (List (String × String) × List String) :=
  fun _ => none

/-- A chunk-type retrieval result carrying only a score. -/
def result_of_score (q : ℚ) : RetrievalResult :=
  { id := "c1", name := "n", type := "chunk", score := q, text := "",
    is_entity := false, properties := [] }

/-- Five results whose top-5 average is exactly 0.50. -/
def results_half : List RetrievalResult :=
  ([1/2, 1/2, 1/2, 1/2, 1/2] : List ℚ).map result_of_score

/-- Five results with top-5 maximum 0.59 and top-5 average exactly 0.49. -/
def results_low : List RetrievalResult :=
  ([59/100, 49/100, 49/100, 44/100, 44/100] : List ℚ).map result_of_score

/-- An extracted entity named Alice with description x. -/
def e_alice_x : Entity := { name := "Alice", type := "person", description := "x", properties := [] }

/-- A duplicate of Alice (same name and type) with an empty description. -/
def e_alice_empty : Entity := { name := "alice", type := "Person", description := "", properties := [] }

/-- A duplicate of Alice (same name and type) with description y. -/
def e_alice_y : Entity := { name := "alice", type := "Person", description := "y", properties := [] }

/-- An extraction result holding a single entity and nothing else. -/
def res_of_entity (e : Entity) : ExtractionResult :=
  { entities := [e], relationships := [], source_text := "", chunk_id := "" }

/-- A high-scoring entity result, for the partial-success instance. -/
def r_entity_hit : RetrievalResult :=
  { id := "e_1", name := "Alice", type := "entity", score := 1, text := "t",
    is_entity := true, properties := [] }

/-- A name-search store answering two rows for the name x under the person
tag and nothing otherwise. -/
def store_names : String → String → List GRow :=
  fun nm tg =>
    if nm = "x" ∧ tg = "person" then
      [{ vid := "v1", name := none, description := none, rtype := none },
       { vid := "v2", name := some "Vertex2", description := some "d2", rtype := none }]
    else []

/-- Termination measure of the BFS queue: each entry at depth `d` weighs
`16 ^ (max_depth + 1 - d)`.  Every loop iteration strictly decreases the
total (an entry enqueues at most 15 successors of the next depth, each a
sixteenth of its weight), which certifies that `expand_fuel` never runs
out. -/
def pending_measure (max_depth : Nat) (pending : List (String × Nat)) : Nat :=
  (pending.map (fun pr => 16 ^ (max_depth + 1 - pr.2))).sum

/-- The edge bookkeeping invariant of an expansion state: every recorded
edge's directed key is in the seen-edge set, and no two recorded edges share
an undirected identity. -/
def edge_inv (st : ExpState) : Prop :=
  (∀ e ∈ st.edges, edge_key_of e ∈ st.seen_edges) ∧
    st.edges.Pairwise (fun a b => ¬ same_undirected a b)

/-- The score-assignment discipline of the graph-search fan-out: the k-th
result (k from 0, discovery order) carries score `1.0 - 0.05 * k`. -/
def gs_scores_ok (rs : List RetrievalResult) : Prop :=
  rs.map RetrievalResult.score
    = (List.range rs.length).map (fun k : Nat => ((1 - (k : ℚ) * (1/20)) : ℚ))

/-! ## Theorems -/

/-! ### C2: JSON repair of a truncated response -/

/-- Counterexample to C2: on the truncated response
`\x7b"entities": [\x7b"name": "X` the parse protocol of
`_parse_response` gives up and returns the empty result, because the
brace-span regex requires a closing brace somewhere in the response and
this response has none, so the repair pass is never reached. -/
theorem c2_parse_protocol_gives_up : parse_response c2_input = none := by decide

/-- C2 (as amended): on the truncated response the parse protocol gives up
with the empty result (the span regex finds no closing brace, so repair is
never attempted); the repair routine `_fix_json`, applied directly to the
truncated text, does produce parseable JSON, but it appends the missing
closers before closing the string — the first copy of the closers lands
inside the string value — and then closes the string and appends the
closers once more. -/
theorem c2_repair_order : fix_json c2_input = c2_repaired ∧
    json_valid c2_repaired = true ∧ parse_response c2_input = none := by
  refine ⟨by decide, by decide, by decide⟩

/-! ### C3: the quality gate -/

/-- C3: the quality gate is always true for graph search; false on an empty
result list for any other search type; and otherwise true exactly when the
top-5 maximum reaches 0.6 or the top-5 average reaches 0.5.  In particular
a top-5 average of exactly 0.50 passes, and a top-5 average of 0.49 with
maximum 0.59 does not. -/
theorem c3_quality_gate :
    (∀ results, should_expand_graph results "graph" = true) ∧
    (∀ search_type, search_type ≠ "graph" → should_expand_graph [] search_type = false) ∧
    (∀ results search_type, search_type ≠ "graph" → results ≠ [] →
      (should_expand_graph results search_type = true ↔
        3/5 ≤ list_max (top_scores results) ∨ 1/2 ≤ list_avg (top_scores results))) ∧
    should_expand_graph results_half "hybrid" = true ∧
    should_expand_graph results_low "hybrid" = false := by
  refine ⟨?_, ?_, ?_, ?_, ?_⟩
  · intro results
    simp [should_expand_graph]
  · intro search_type h
    simp [should_expand_graph, h]
  · intro results search_type h hne
    have h2 : results.isEmpty = false := by
      cases results with
      | nil => exact absurd rfl hne
      | cons r rs => rfl
    have h3 : (top_scores results).isEmpty = false := by
      cases results with
      | nil => exact absurd rfl hne
      | cons r rs => rfl
    simp [should_expand_graph, h, h2, h3]
  · norm_num [should_expand_graph, results_half, top_scores, result_of_score, list_max,
      list_avg]
  · norm_num [should_expand_graph, results_low, top_scores, result_of_score, list_max,
      list_avg]
    decide

/-- Witness for C3 at a concrete input: an empty hybrid result list does
not pass the gate. -/
theorem c3_quality_gate_witness : should_expand_graph [] "hybrid" = false :=
  c3_quality_gate.2.1 "hybrid" (by decide)

/-! ### C6 and C9: entity merging -/

/-- Case-insensitively equal names and types give equal dedup keys. -/
theorem entity_key_congr (e1 e2 : Entity) (hname : str_lower e1.name = str_lower e2.name)
    (htype : str_lower e1.type = str_lower e2.type) : entity_key e1 = entity_key e2 := by
  unfold entity_key
  rw [hname, htype]

/-- Counterexample to C6: merging Alice with description x and a duplicate
Alice with the empty description — two duplicate entities with differing
descriptions — keeps description x instead of producing the concatenation,
because the merge only appends a non-empty duplicate description. -/
theorem c6_empty_description_not_appended :
    e_alice_x.description ≠ e_alice_empty.description ∧
    (merge_results [res_of_entity e_alice_x, res_of_entity e_alice_empty]).entities
      = [e_alice_x] ∧
    (merge_results [res_of_entity e_alice_x, res_of_entity e_alice_empty]).entities
      ≠ [{ e_alice_x with
            description := e_alice_x.description ++ "; " ++ e_alice_empty.description }] := by
  refine ⟨by decide, by decide, by decide⟩

/-- C6 (as amended): merging two results whose entities share the
case-insensitive name-and-type key, where the later duplicate's description
is non-empty and differs from the first's, yields exactly one entity for
that key, keeping the first entity's name, type and properties, with
description first-then-second joined by a semicolon and space; a later
duplicate with an empty description leaves the kept description unchanged
(the latter is proved as C9). -/
theorem c6_duplicate_description_concatenated (e1 e2 : Entity)
    (hname : str_lower e1.name = str_lower e2.name)
    (htype : str_lower e1.type = str_lower e2.type)
    (hne : e2.description ≠ "") (hdiff : e2.description ≠ e1.description) :
    merge_results [res_of_entity e1, res_of_entity e2] =
      { entities := [{ e1 with description := e1.description ++ "; " ++ e2.description }]
        relationships := []
        source_text := ""
        chunk_id := "" } := by
  have hk := entity_key_congr e1 e2 hname htype
  simp [merge_results, res_of_entity, fold_entity, lookup_str, hk, hne, hdiff, dedup_rels]

/-- Witness for C6 at a concrete input: Alice with description x merged
with alice (same key) with description y gives the single entity with
description joined as x-semicolon-y. -/
theorem c6_duplicate_description_concatenated_witness :
    str_lower e_alice_x.name = str_lower e_alice_y.name ∧
    str_lower e_alice_x.type = str_lower e_alice_y.type ∧
    e_alice_y.description ≠ "" ∧ e_alice_y.description ≠ e_alice_x.description ∧
    merge_results [res_of_entity e_alice_x, res_of_entity e_alice_y] =
      { entities := [{ e_alice_x with description := "x; y" }]
        relationships := []
        source_text := ""
        chunk_id := "" } :=
  ⟨by decide, by decide, by decide, by decide,
    c6_duplicate_description_concatenated e_alice_x e_alice_y (by decide) (by decide)
      (by decide) (by decide)⟩

/-- C9: a later duplicate entity whose description is empty or exactly the
kept one's leaves the kept entity entirely unchanged — name, type,
description and properties identical to before the duplicate was seen. -/
theorem c9_duplicate_with_empty_or_equal_description_is_noop (e1 e2 : Entity)
    (hname : str_lower e1.name = str_lower e2.name)
    (htype : str_lower e1.type = str_lower e2.type)
    (hd : e2.description = "" ∨ e2.description = e1.description) :
    merge_results [res_of_entity e1, res_of_entity e2] =
      { entities := [e1], relationships := [], source_text := "", chunk_id := "" } := by
  have hk := entity_key_congr e1 e2 hname htype
  rcases hd with hd | hd
  · simp [merge_results, res_of_entity, fold_entity, lookup_str, hk, hd, dedup_rels]
  · simp [merge_results, res_of_entity, fold_entity, lookup_str, hk, hd, dedup_rels]

/-- Witness for C9 at a concrete input: the empty-description duplicate of
Alice leaves the kept entity untouched. -/
theorem c9_duplicate_noop_witness :
    str_lower e_alice_x.name = str_lower e_alice_empty.name ∧
    str_lower e_alice_x.type = str_lower e_alice_empty.type ∧
    e_alice_empty.description = "" ∧
    merge_results [res_of_entity e_alice_x, res_of_entity e_alice_empty] =
      { entities := [e_alice_x], relationships := [], source_text := "", chunk_id := "" } :=
  ⟨by decide, by decide, by decide,
    c9_duplicate_with_empty_or_equal_description_is_noop e_alice_x e_alice_empty
      (by decide) (by decide) (Or.inl (by decide))⟩

/-! ### C7: overall success flag -/

/-- The finalize step sets the success flag exactly as claimed. -/
theorem finalize_response_success_iff (r : RetrievalResponse) :
    (finalize_response r).success = true ↔
      ((finalize_response r).errors = [] ∨ (finalize_response r).results ≠ []) := by
  simp [finalize_response, List.length_eq_zero, List.length_pos]

/-- C7: every response of `retrieve` is marked successful exactly when its
error list is empty or its result list is non-empty; in particular a
response with an LLM error but one vector hit is still successful. -/
theorem c7_success_iff_no_errors_or_some_results :
    (∀ query search_type expand_graph use_llm vec gs expansion llm,
      ((retrieve query search_type expand_graph use_llm vec gs expansion llm).success = true ↔
        ((retrieve query search_type expand_graph use_llm vec gs expansion llm).errors = [] ∨
         (retrieve query search_type expand_graph use_llm vec gs expansion llm).results ≠ []))) ∧
    ((retrieve "q" "hybrid" true true (.ok ([r_entity_hit], [])) (.ok [])
        (.ok none) (.error "boom")).errors ≠ [] ∧
     (retrieve "q" "hybrid" true true (.ok ([r_entity_hit], [])) (.ok [])
        (.ok none) (.error "boom")).results ≠ [] ∧
     (retrieve "q" "hybrid" true true (.ok ([r_entity_hit], [])) (.ok [])
        (.ok none) (.error "boom")).success = true) := by
  have hg : should_expand_graph [r_entity_hit] "hybrid" = true := by
    norm_num [should_expand_graph, r_entity_hit, top_scores, list_max, list_avg]
  refine ⟨?_, ?_, ?_, ?_⟩
  · intro query search_type expand_graph use_llm vec gs expansion llm
    exact finalize_response_success_iff _
  · simp [retrieve, finalize_response, hg]
  · simp [retrieve, finalize_response, hg]
  · simp [retrieve, finalize_response, hg]

/-! ### C10: graph-search score assignment -/

/-- One row step preserves the score discipline: a skipped row changes
nothing, an appended result gets score `1 - 0.05 * (previous length)`. -/
theorem gs_row_step_scores (name tag : String) (acc : List RetrievalResult × List String)
    (row : GRow) (h : gs_scores_ok acc.1) : gs_scores_ok (gs_row_step name tag acc row).1 := by
  unfold gs_scores_ok at h ⊢
  unfold gs_row_step
  split
  · simp [List.range_succ, h]
  · exact h

/-- The per-query row fold preserves the score discipline. -/
theorem gs_fold_rows_scores (name tag : String) (rows : List GRow) :
    ∀ acc : List RetrievalResult × List String, gs_scores_ok acc.1 →
      gs_scores_ok (rows.foldl (gs_row_step name tag) acc).1 := by
  induction rows with
  | nil => intro acc h; exact h
  | cons r rs ih =>
      intro acc h
      exact ih (gs_row_step name tag acc r) (gs_row_step_scores name tag acc r h)

/-- The per-name tag fold preserves the score discipline. -/
theorem gs_fold_tags_scores (store : String → String → List GRow) (name : String)
    (tags : List String) :
    ∀ acc : List RetrievalResult × List String, gs_scores_ok acc.1 →
      gs_scores_ok
        (tags.foldl (fun acc2 tag => (store name tag).foldl (gs_row_step name tag) acc2) acc).1 := by
  induction tags with
  | nil => intro acc h; exact h
  | cons t ts ih =>
      intro acc h
      exact ih _ (gs_fold_rows_scores name t (store name t) acc h)

/-- The outer name fold preserves the score discipline. -/
theorem gs_fold_names_scores (store : String → String → List GRow) (ns : List String) :
    ∀ acc : List RetrievalResult × List String, gs_scores_ok acc.1 →
      gs_scores_ok
        (ns.foldl
          (fun acc name =>
            gs_tags.foldl (fun acc2 tag => (store name tag).foldl (gs_row_step name tag) acc2) acc)
          acc).1 := by
  induction ns with
  | nil => intro acc h; exact h
  | cons n nst ih =>
      intro acc h
      exact ih _ (gs_fold_tags_scores store n gs_tags acc h)

/-- The whole fan-out satisfies the score discipline. -/
theorem search_entities_scores_ok (store : String → String → List GRow) (names : List String) :
    gs_scores_ok (search_entities_by_names store names) := by
  unfold search_entities_by_names
  exact gs_fold_names_scores store (names.take 5) ([], []) (by simp [gs_scores_ok])

/-- Pointwise reading of the score discipline. -/
theorem gs_scores_ok_get (rs : List RetrievalResult) (h : gs_scores_ok rs) (k : Nat)
    (hk : k < rs.length) : (rs.get ⟨k, hk⟩).score = 1 - (k : ℚ) * (1/20) := by
  have h1 : (rs.map RetrievalResult.score)[k]?
      = ((List.range rs.length).map (fun i : Nat => ((1 - (i : ℚ) * (1/20)) : ℚ)))[k]? := by
    rw [h]
  rw [List.getElem?_map, List.getElem?_map, List.getElem?_eq_getElem hk,
    List.getElem?_range hk] at h1
  simpa using h1

/-- One row step grows the result list by at most one. -/
theorem gs_row_step_length (name tag : String) (acc : List RetrievalResult × List String)
    (row : GRow) : (gs_row_step name tag acc row).1.length ≤ acc.1.length + 1 := by
  unfold gs_row_step
  split
  · simp
  · simp

/-- The per-query row fold grows the result list by at most the number of
answered rows. -/
theorem gs_fold_rows_length (name tag : String) (rows : List GRow) :
    ∀ acc : List RetrievalResult × List String,
      (rows.foldl (gs_row_step name tag) acc).1.length ≤ acc.1.length + rows.length := by
  induction rows with
  | nil => intro acc; simp
  | cons r rs ih =>
      intro acc
      have h1 := ih (gs_row_step name tag acc r)
      have h2 := gs_row_step_length name tag acc r
      simp only [List.foldl_cons, List.length_cons]
      omega

/-- When every query answers at most three rows, the tag fold grows the
result list by at most three per tag. -/
theorem gs_fold_tags_length (store : String → String → List GRow) (name : String)
    (hb : ∀ nm tg, (store nm tg).length ≤ 3) (tags : List String) :
    ∀ acc : List RetrievalResult × List String,
      (tags.foldl (fun acc2 tag => (store name tag).foldl (gs_row_step name tag) acc2) acc).1.length
        ≤ acc.1.length + 3 * tags.length := by
  induction tags with
  | nil => intro acc; simp
  | cons t ts ih =>
      intro acc
      have h1 := ih ((store name t).foldl (gs_row_step name t) acc)
      have h2 := gs_fold_rows_length name t (store name t) acc
      have h3 := hb name t
      simp only [List.foldl_cons, List.length_cons]
      omega

/-- When every query answers at most three rows, the name fold grows the
result list by at most fifteen per name (five tags times three rows). -/
theorem gs_fold_names_length (store : String → String → List GRow)
    (hb : ∀ nm tg, (store nm tg).length ≤ 3) (ns : List String) :
    ∀ acc : List RetrievalResult × List String,
      (ns.foldl
        (fun acc name =>
          gs_tags.foldl (fun acc2 tag => (store name tag).foldl (gs_row_step name tag) acc2) acc)
        acc).1.length ≤ acc.1.length + 15 * ns.length := by
  induction ns with
  | nil => intro acc; simp
  | cons n nst ih =>
      intro acc
      have h1 := ih
        (gs_tags.foldl (fun acc2 tag => (store n tag).foldl (gs_row_step n tag) acc2) acc)
      have h2 := gs_fold_tags_length store n hb gs_tags acc
      have hlen : gs_tags.length = 5 := rfl
      rw [hlen] at h2
      simp only [List.foldl_cons, List.length_cons]
      omega

/-- C10: in `search_entities_by_names` the k-th appended result (k from 0
in discovery order) has score exactly `1.0 - 0.05 * k`; scores therefore
strictly decrease with discovery order and are negative for every `k > 20`;
and when the store honours the per-query `LIMIT 3`, at most
5 names x 5 tags x 3 rows = 75 results are collected. -/
theorem c10_graph_search_scores (store : String → String → List GRow) (names : List String) :
    (∀ k (hk : k < (search_entities_by_names store names).length),
      ((search_entities_by_names store names).get ⟨k, hk⟩).score = 1 - (k : ℚ) * (1/20)) ∧
    (∀ i j (hi : i < (search_entities_by_names store names).length)
        (hj : j < (search_entities_by_names store names).length), i < j →
      ((search_entities_by_names store names).get ⟨j, hj⟩).score
        < ((search_entities_by_names store names).get ⟨i, hi⟩).score) ∧
    (∀ k (hk : k < (search_entities_by_names store names).length), 20 < k →
      ((search_entities_by_names store names).get ⟨k, hk⟩).score < 0) ∧
    ((∀ nm tg, (store nm tg).length ≤ 3) →
      (search_entities_by_names store names).length ≤ 75) := by
  have hok := search_entities_scores_ok store names
  refine ⟨fun k hk => gs_scores_ok_get _ hok k hk, ?_, ?_, ?_⟩
  · intro i j hi hj hij
    rw [gs_scores_ok_get _ hok i hi, gs_scores_ok_get _ hok j hj]
    have hc : (i : ℚ) < (j : ℚ) := by exact_mod_cast hij
    have h2 : (i : ℚ) * (1/20) < (j : ℚ) * (1/20) := by
      apply mul_lt_mul_of_pos_right hc
      norm_num
    linarith
  · intro k hk hk20
    rw [gs_scores_ok_get _ hok k hk]
    have hc : (20 : ℚ) < (k : ℚ) := by exact_mod_cast hk20
    nlinarith
  · intro hb
    have h1 := gs_fold_names_length store hb (names.take 5) ([], [])
    have h2 : (names.take 5).length ≤ 5 := List.length_take_le 5 names
    unfold search_entities_by_names
    simp only [List.length_nil] at h1
    omega

/-- Witness for C10 at a concrete store: two results are found for the name
x, the second scores below the first, and the total stays within 75. -/
theorem c10_graph_search_scores_witness :
    1 < (search_entities_by_names store_names ["x"]).length ∧
    ((search_entities_by_names store_names ["x"]).get ⟨1, by decide⟩).score
      < ((search_entities_by_names store_names ["x"]).get ⟨0, by decide⟩).score ∧
    (search_entities_by_names store_names ["x"]).length ≤ 75 :=
  ⟨by decide,
   (c10_graph_search_scores store_names ["x"]).2.1 0 1 (by decide) (by decide) (by decide),
   (c10_graph_search_scores store_names ["x"]).2.2.2 (fun nm tg => by
      unfold store_names
      split <;> decide)⟩

/-! ### Expansion row and node lemmas (towards C1, C4, C5, C8) -/

/-- A row never touches the seen-node set. -/
theorem process_row_seen (vid : String) (st : ExpState) (nbrs : List String) (row : Row) :
    (process_row vid st nbrs row).1.seen_nodes = st.seen_nodes := by
  unfold process_row
  split
  · rfl
  · rfl

/-- Any node present after a row was present before, or is the row's
destination, recorded only while that destination is unseen and non-empty. -/
theorem process_row_nodes (vid : String) (st : ExpState) (nbrs : List String) (row : Row) :
    ∀ n ∈ (process_row vid st nbrs row).1.nodes,
      n ∈ st.nodes ∨ (n.id = row.dst_id ∧ row.dst_id ∉ st.seen_nodes ∧ row.dst_id ≠ "") := by
  intro n hn
  unfold process_row at hn
  by_cases hd : row.dst_id = ""
  · rw [if_pos hd] at hn
    exact Or.inl hn
  · rw [if_neg hd] at hn
    dsimp only at hn
    by_cases hs : row.dst_id ∈ st.seen_nodes
    · rw [if_pos hs] at hn
      exact Or.inl hn
    · rw [if_neg hs] at hn
      rcases List.mem_append.mp hn with h1 | h1
      · exact Or.inl h1
      · have h2 : n = ⟨row.dst_id,
            extract_name_from_props row.dst_props row.dst_labels row.dst_id,
            row.dst_labels.headD "entity", row.dst_props⟩ := by
          simpa using h1
        subst h2
        exact Or.inr ⟨rfl, hs, hd⟩

/-- Any expansion candidate collected by a row was already a candidate, or
is the row's destination. -/
theorem process_row_nbrs (vid : String) (st : ExpState) (nbrs : List String) (row : Row) :
    ∀ x ∈ (process_row vid st nbrs row).2, x ∈ nbrs ∨ x = row.dst_id := by
  intro x hx
  unfold process_row at hx
  by_cases hd : row.dst_id = ""
  · rw [if_pos hd] at hx
    exact Or.inl hx
  · rw [if_neg hd] at hx
    dsimp only at hx
    by_cases hs : row.dst_id ∈ st.seen_nodes
    · rw [if_pos hs] at hx
      exact Or.inl hx
    · rw [if_neg hs] at hx
      by_cases hp : row.edge_type ∈ PRIORITY_EDGE_TYPES
      · rw [if_pos hp] at hx
        rcases List.mem_cons.mp hx with h1 | h1
        · exact Or.inr h1
        · exact Or.inl h1
      · rw [if_neg hp] at hx
        rcases List.mem_append.mp hx with h1 | h1
        · exact Or.inl h1
        · exact Or.inr (by simpa using h1)

/-- A row preserves the edge bookkeeping invariant: an edge is appended
only when neither direction of its key was recorded, and its key is
recorded with it. -/
theorem process_row_edge_inv (vid : String) (st : ExpState) (nbrs : List String) (row : Row)
    (h : edge_inv st) : edge_inv (process_row vid st nbrs row).1 := by
  unfold process_row
  by_cases hd : row.dst_id = ""
  · rw [if_pos hd]
    exact h
  · rw [if_neg hd]
    dsimp only
    by_cases hC : (vid ++ "-" ++ row.edge_type ++ "-" ++ row.dst_id) ∉ st.seen_edges ∧
        (row.dst_id ++ "-" ++ row.edge_type ++ "-" ++ vid) ∉ st.seen_edges
    · simp only [if_pos hC]
      constructor
      · intro e he
        rcases List.mem_append.mp he with h1 | h1
        · exact List.mem_append_left _ (h.1 e h1)
        · rcases List.mem_singleton.mp h1 with rfl
          exact List.mem_append_right _ (by simp [edge_key_of])
      · rw [List.pairwise_append]
        refine ⟨h.2, by simp, ?_⟩
        intro a ha b hb
        rcases List.mem_singleton.mp hb with rfl
        intro hsame
        have hkey := h.1 a ha
        simp only [same_undirected] at hsame
        obtain ⟨ht, hor⟩ := hsame
        rcases hor with ⟨h1, h2⟩ | ⟨h1, h2⟩
        · have h3 : edge_key_of a = vid ++ "-" ++ row.edge_type ++ "-" ++ row.dst_id := by
            unfold edge_key_of
            rw [h1, ht, h2]
          exact hC.1 (h3 ▸ hkey)
        · have h3 : edge_key_of a = row.dst_id ++ "-" ++ row.edge_type ++ "-" ++ vid := by
            unfold edge_key_of
            rw [h1, ht, h2]
          exact hC.2 (h3 ▸ hkey)
    · simp only [if_neg hC]
      exact h

/-- The row fold never touches the seen-node set. -/
theorem fold_rows_seen (vid : String) (rows : List Row) :
    ∀ p : ExpState × List String,
      (rows.foldl (fun q row => process_row vid q.1 q.2 row) p).1.seen_nodes
        = p.1.seen_nodes := by
  induction rows with
  | nil => intro p; rfl
  | cons r rs ih =>
      intro p
      rw [List.foldl_cons, ih (process_row vid p.1 p.2 r)]
      exact process_row_seen vid p.1 p.2 r

/-- Any node present after the row fold was present before, or is the
destination of one of the rows, recorded while unseen and non-empty. -/
theorem fold_rows_nodes (vid : String) (rows : List Row) :
    ∀ p : ExpState × List String,
      ∀ n ∈ (rows.foldl (fun q row => process_row vid q.1 q.2 row) p).1.nodes,
        n ∈ p.1.nodes ∨
          ∃ r ∈ rows, n.id = r.dst_id ∧ r.dst_id ∉ p.1.seen_nodes ∧ r.dst_id ≠ "" := by
  induction rows with
  | nil => intro p n hn; exact Or.inl hn
  | cons r rs ih =>
      intro p n hn
      rw [List.foldl_cons] at hn
      rcases ih (process_row vid p.1 p.2 r) n hn with h1 | ⟨r2, hr2, h2, h3, h4⟩
      · rcases process_row_nodes vid p.1 p.2 r n h1 with h5 | ⟨h5, h6, h7⟩
        · exact Or.inl h5
        · exact Or.inr ⟨r, List.mem_cons_self r rs, h5, h6, h7⟩
      · rw [process_row_seen vid p.1 p.2 r] at h3
        exact Or.inr ⟨r2, List.mem_cons_of_mem r hr2, h2, h3, h4⟩

/-- Any candidate collected by the row fold was a candidate before, or is
the destination of one of the rows. -/
theorem fold_rows_nbrs (vid : String) (rows : List Row) :
    ∀ p : ExpState × List String,
      ∀ x ∈ (rows.foldl (fun q row => process_row vid q.1 q.2 row) p).2,
        x ∈ p.2 ∨ ∃ r ∈ rows, x = r.dst_id := by
  induction rows with
  | nil => intro p x hx; exact Or.inl hx
  | cons r rs ih =>
      intro p x hx
      rw [List.foldl_cons] at hx
      rcases ih (process_row vid p.1 p.2 r) x hx with h1 | ⟨r2, hr2, h2⟩
      · rcases process_row_nbrs vid p.1 p.2 r x h1 with h3 | h3
        · exact Or.inl h3
        · exact Or.inr ⟨r, List.mem_cons_self r rs, h3⟩
      · exact Or.inr ⟨r2, List.mem_cons_of_mem r hr2, h2⟩

/-- The row fold preserves the edge bookkeeping invariant. -/
theorem fold_rows_edge_inv (vid : String) (rows : List Row) :
    ∀ p : ExpState × List String, edge_inv p.1 →
      edge_inv (rows.foldl (fun q row => process_row vid q.1 q.2 row) p).1 := by
  induction rows with
  | nil => intro p h; exact h
  | cons r rs ih =>
      intro p h
      rw [List.foldl_cons]
      exact ih (process_row vid p.1 p.2 r) (process_row_edge_inv vid p.1 p.2 r h)

/-- Membership in the stably partitioned row list is membership in the
answered rows. -/
theorem mem_sorted_rows (rows : List Row) (r : Row)
    (h : r ∈ rows.filter (fun r => r.edge_type ∈ PRIORITY_EDGE_TYPES)
        ++ rows.filter (fun r => r.edge_type ∉ PRIORITY_EDGE_TYPES)) : r ∈ rows := by
  rcases List.mem_append.mp h with h1 | h1
  · exact List.mem_of_mem_filter h1
  · exact List.mem_of_mem_filter h1

/-- After `process_node` the processed id is in the seen set. -/
theorem process_node_mem_seen (store : String → List Row) (vid : String) (st : ExpState) :
    vid ∈ (process_node store vid st).2.seen_nodes := by
  unfold process_node
  by_cases h : vid ∈ st.seen_nodes
  · rw [if_pos h]
    exact h
  · rw [if_neg h]
    dsimp only
    rw [fold_rows_seen]
    simp

/-- `process_node` only grows the seen set. -/
theorem process_node_seen_sub (store : String → List Row) (vid : String) (st : ExpState) :
    st.seen_nodes ⊆ (process_node store vid st).2.seen_nodes := by
  unfold process_node
  by_cases h : vid ∈ st.seen_nodes
  · rw [if_pos h]
    exact fun a ha => ha
  · rw [if_neg h]
    dsimp only
    rw [fold_rows_seen]
    exact List.subset_append_left _ _

/-- `process_node` keeps the seen set duplicate-free: the id is added only
after the membership test failed. -/
theorem process_node_seen_nodup (store : String → List Row) (vid : String) (st : ExpState)
    (h : st.seen_nodes.Nodup) : (process_node store vid st).2.seen_nodes.Nodup := by
  unfold process_node
  by_cases hm : vid ∈ st.seen_nodes
  · rw [if_pos hm]
    exact h
  · rw [if_neg hm]
    dsimp only
    rw [fold_rows_seen]
    simp [List.nodup_append, h, hm]

/-- Any node present after `process_node` was present before, or is the
destination of an answered row, unseen at entry, distinct from the
processed id, and non-empty. -/
theorem process_node_nodes (store : String → List Row) (vid : String) (st : ExpState) :
    ∀ n ∈ (process_node store vid st).2.nodes,
      n ∈ st.nodes ∨
        ((∃ r ∈ store vid, n.id = r.dst_id) ∧ n.id ∉ st.seen_nodes ∧ n.id ≠ vid ∧ n.id ≠ "") := by
  intro n hn
  unfold process_node at hn
  by_cases hm : vid ∈ st.seen_nodes
  · rw [if_pos hm] at hn
    exact Or.inl hn
  · rw [if_neg hm] at hn
    dsimp only at hn
    rcases fold_rows_nodes vid _ _ n hn with h1 | ⟨r, hr, h2, h3, h4⟩
    · exact Or.inl h1
    · simp only [List.mem_append, List.mem_singleton] at h3
      push_neg at h3
      rw [← h2] at h4 h3
      exact Or.inr ⟨⟨r, mem_sorted_rows (store vid) r hr, h2⟩, h3.1, h3.2, h4⟩

/-- Every expansion candidate returned by `process_node` is the destination
of an answered row. -/
theorem process_node_nbrs (store : String → List Row) (vid : String) (st : ExpState) :
    ∀ x ∈ (process_node store vid st).1, ∃ r ∈ store vid, x = r.dst_id := by
  intro x hx
  unfold process_node at hx
  by_cases hm : vid ∈ st.seen_nodes
  · rw [if_pos hm] at hx
    simp at hx
  · rw [if_neg hm] at hx
    dsimp only at hx
    rcases fold_rows_nbrs vid _ _ x hx with h1 | ⟨r, hr, h2⟩
    · simp at h1
    · exact ⟨r, mem_sorted_rows (store vid) r hr, h2⟩

/-- `process_node` preserves the edge bookkeeping invariant. -/
theorem process_node_edge_inv (store : String → List Row) (vid : String) (st : ExpState)
    (h : edge_inv st) : edge_inv (process_node store vid st).2 := by
  unfold process_node
  by_cases hm : vid ∈ st.seen_nodes
  · rw [if_pos hm]
    exact h
  · rw [if_neg hm]
    dsimp only
    exact fold_rows_edge_inv vid _ _ h

/-! ### Expansion loop lemmas -/

/-- The loop preserves the edge bookkeeping invariant. -/
theorem expand_loop_edge_inv (store : String → List Row) (max_depth : Nat) :
    ∀ fuel pending st, edge_inv st →
      edge_inv (expand_loop store max_depth fuel pending st) := by
  intro fuel
  induction fuel with
  | zero => intro pending st h; exact h
  | succ f ih =>
      intro pending st h
      cases pending with
      | nil => exact h
      | cons hd rest =>
          obtain ⟨vid, depth⟩ := hd
          simp only [expand_loop]
          by_cases hcut : max_depth < depth
          · rw [if_pos hcut]
            exact ih rest st h
          · rw [if_neg hcut]
            exact ih _ _ (process_node_edge_inv store vid st h)

/-- The loop keeps the seen set duplicate-free. -/
theorem expand_loop_seen_nodup (store : String → List Row) (max_depth : Nat) :
    ∀ fuel pending st, st.seen_nodes.Nodup →
      (expand_loop store max_depth fuel pending st).seen_nodes.Nodup := by
  intro fuel
  induction fuel with
  | zero => intro pending st h; exact h
  | succ f ih =>
      intro pending st h
      cases pending with
      | nil => exact h
      | cons hd rest =>
          obtain ⟨vid, depth⟩ := hd
          simp only [expand_loop]
          by_cases hcut : max_depth < depth
          · rw [if_pos hcut]
            exact ih rest st h
          · rw [if_neg hcut]
            exact ih _ _ (process_node_seen_nodup store vid st h)

/-- Once an id is in the seen set and absent from the node list, no later
iteration records a node with that id. -/
theorem expand_loop_avoid (store : String → List Row) (max_depth : Nat) (x : String) :
    ∀ fuel pending st, x ∈ st.seen_nodes → (∀ n ∈ st.nodes, n.id ≠ x) →
      ∀ n ∈ (expand_loop store max_depth fuel pending st).nodes, n.id ≠ x := by
  intro fuel
  induction fuel with
  | zero => intro pending st hx hn; exact hn
  | succ f ih =>
      intro pending st hx hn
      cases pending with
      | nil => exact hn
      | cons hd rest =>
          obtain ⟨vid, depth⟩ := hd
          simp only [expand_loop]
          by_cases hcut : max_depth < depth
          · rw [if_pos hcut]
            exact ih rest st hx hn
          · rw [if_neg hcut]
            refine ih _ _ (process_node_seen_sub store vid st hx) ?_
            intro n hmem
            rcases process_node_nodes store vid st n hmem with h1 | ⟨_, h2, _, _⟩
            · exact hn n h1
            · intro he
              exact h2 (he ▸ hx)

/-- Reachability is monotone in the hop bound (one step). -/
theorem reach_succ (store : String → List Row) (seeds : List String) :
    ∀ n x, ReachWithin store seeds n x → ReachWithin store seeds (n + 1) x := by
  intro n
  induction n with
  | zero => intro x h; exact Or.inl h
  | succ m ih =>
      intro x h
      rcases h with h | ⟨v, hv, r, hr, hx⟩
      · exact Or.inl h
      · exact Or.inr ⟨v, ih v hv, r, hr, hx⟩

/-- Reachability is monotone in the hop bound. -/
theorem reach_mono (store : String → List Row) (seeds : List String) :
    ∀ {n m : Nat}, n ≤ m → ∀ x, ReachWithin store seeds n x → ReachWithin store seeds m x := by
  intro n m h
  induction h with
  | refl => exact fun x hx => hx
  | step _ ih => exact fun x hx => reach_succ store seeds _ x (ih x hx)

/-- Loop invariant for the depth bound: if every queued entry at depth `d`
is reachable in `d - 1` hops and every recorded node is reachable within
the bound, the same holds for every node recorded by the rest of the run. -/
theorem expand_loop_reach (store : String → List Row) (max_depth : Nat) (seeds : List String) :
    ∀ fuel pending st,
      (∀ pr ∈ pending, 1 ≤ pr.2 ∧ ReachWithin store seeds (pr.2 - 1) pr.1) →
      (∀ n ∈ st.nodes, ReachWithin store seeds max_depth n.id) →
      ∀ n ∈ (expand_loop store max_depth fuel pending st).nodes,
        ReachWithin store seeds max_depth n.id := by
  intro fuel
  induction fuel with
  | zero => intro pending st hp hn; exact hn
  | succ f ih =>
      intro pending st hp hn
      cases pending with
      | nil => exact hn
      | cons hd rest =>
          obtain ⟨vid, depth⟩ := hd
          simp only [expand_loop]
          by_cases hcut : max_depth < depth
          · rw [if_pos hcut]
            exact ih rest st (fun pr hpr => hp pr (List.mem_cons_of_mem _ hpr)) hn
          · rw [if_neg hcut]
            obtain ⟨hd1, hdr⟩ := hp (vid, depth) (List.mem_cons_self _ _)
            have hdep : depth - 1 + 1 = depth := Nat.succ_pred_eq_of_pos hd1
            have hnodes2 : ∀ n ∈ (process_node store vid st).2.nodes,
                ReachWithin store seeds max_depth n.id := by
              intro n hmem
              rcases process_node_nodes store vid st n hmem with h1 | ⟨⟨r, hr, hid⟩, _, _, _⟩
              · exact hn n h1
              · have hstep : ReachWithin store seeds ((depth - 1) + 1) n.id :=
                  Or.inr ⟨vid, hdr, r, hr, hid.symm⟩
                rw [hdep] at hstep
                exact reach_mono store seeds (Nat.le_of_not_lt hcut) n.id hstep
            have hrest : ∀ pr ∈ rest, 1 ≤ pr.2 ∧ ReachWithin store seeds (pr.2 - 1) pr.1 :=
              fun pr hpr => hp pr (List.mem_cons_of_mem _ hpr)
            by_cases hlt : depth < max_depth
            · rw [if_pos hlt]
              refine ih _ _ ?_ hnodes2
              intro pr hpr
              rcases List.mem_append.mp hpr with h1 | h1
              · exact hrest pr h1
              · rcases List.mem_map.mp h1 with ⟨y, hy, rfl⟩
                have hy2 : y ∈ (process_node store vid st).1 :=
                  List.take_subset 15 _ (List.mem_of_mem_filter hy)
                obtain ⟨r, hr, hid⟩ := process_node_nbrs store vid st y hy2
                refine ⟨by omega, ?_⟩
                have hstep : ReachWithin store seeds ((depth - 1) + 1) y :=
                  Or.inr ⟨vid, hdr, r, hr, hid.symm⟩
                rw [hdep] at hstep
                simpa using hstep
            · rw [if_neg hlt]
              exact ih _ _ hrest hnodes2

/-- A queue whose entries all exceed the depth bound is drained without any
state change. -/
theorem expand_loop_skip_all (store : String → List Row) (max_depth : Nat) :
    ∀ fuel pending st, (∀ pr ∈ pending, max_depth < pr.2) →
      expand_loop store max_depth fuel pending st = st := by
  intro fuel
  induction fuel with
  | zero => intro pending st h; rfl
  | succ f ih =>
      intro pending st h
      cases pending with
      | nil => rfl
      | cons hd rest =>
          obtain ⟨vid, depth⟩ := hd
          simp only [expand_loop]
          rw [if_pos (h (vid, depth) (List.mem_cons_self _ _))]
          exact ih rest st (fun pr hpr => h pr (List.mem_cons_of_mem _ hpr))

/-! ### C1: node dedup in the returned context -/

/-- Counterexample to C1: with seed a, depth 1, and a store in which a has
two parallel edges to b, the returned context records the node b twice —
the destination is only checked against the set of already-expanded ids,
which b never joins, so each row appends it again. -/
theorem c1_counterexample_duplicate_node :
    ¬ ((expand store_dup name_store_empty ["a"] 1 []).nodes.map GraphNode.id).Nodup := by
  decide

/-- C1 (as amended): every node id is expanded at most once per run — the
seen set is tested and extended before the neighbour query, so the list of
expanded ids is duplicate-free and no id's neighbourhood is fetched twice.
(A node id can still appear as the id of more than one GraphNode in
`GraphContext.nodes`, when several rows name it as a neighbour before it is
itself dequeued; see the counterexample.) -/
theorem c1_no_duplicate_expansion_work (store : String → List Row)
    (name_store : String → Option (List (String × String) × List String))
    (entity_ids : List String) (max_depth : Nat) (id_to_name : List (String × String)) :
    ((expand_state store name_store entity_ids max_depth id_to_name).seen_nodes).Nodup := by
  unfold expand_state
  exact expand_loop_seen_nodup store max_depth _ _ _ (by simp)

/-! ### C5: undirected edge dedup -/

/-- C5: in every returned context, edge identity is undirected — the edge
list never contains two entries carrying the same type and the same
endpoint pair in either orientation, so recording one direction bars the
other (only the first-seen direction is kept). -/
theorem c5_edges_undirected_dedup (store : String → List Row)
    (name_store : String → Option (List (String × String) × List String))
    (entity_ids : List String) (max_depth : Nat) (id_to_name : List (String × String)) :
    ((expand store name_store entity_ids max_depth id_to_name).edges).Pairwise
      (fun a b => ¬ same_undirected a b) := by
  have h : edge_inv (expand_state store name_store entity_ids max_depth id_to_name) := by
    unfold expand_state
    refine expand_loop_edge_inv store max_depth _ _ _ ?_
    exact ⟨fun e he => absurd he (by simp), by simp⟩
  unfold expand
  dsimp only
  refine List.Pairwise.map _ ?_ h.2
  intro a b hab hsame
  exact hab hsame

/-! ### C8: the first seed never reappears as a node -/

/-- C8: for a non-empty seed list, the first seed id never appears as the
id of a returned GraphNode: it is dequeued first and marked seen before any
row is recorded, so neither its own self-loop rows nor later rows can add
it as a node. -/
theorem c8_first_seed_not_a_node (store : String → List Row)
    (name_store : String → Option (List (String × String) × List String))
    (e0 : String) (rest : List String) (max_depth : Nat)
    (id_to_name : List (String × String)) :
    ∀ n ∈ (expand store name_store (e0 :: rest) max_depth id_to_name).nodes, n.id ≠ e0 := by
  intro n hn
  have hn2 : n ∈ (expand_state store name_store (e0 :: rest) max_depth id_to_name).nodes := hn
  revert hn2
  cases max_depth with
  | zero =>
      unfold expand_state
      rw [expand_loop_skip_all]
      · intro hmem
        simp at hmem
      · intro pr hpr
        rcases List.mem_map.mp hpr with ⟨e, _, rfl⟩
        exact Nat.zero_lt_one
  | succ m =>
      unfold expand_state
      have hpend : (((e0 :: rest).take 10).map (fun e => (e, 1)))
          = (e0, 1) :: ((rest.take 9).map (fun e => (e, 1))) := rfl
      rw [hpend]
      simp only [expand_loop]
      rw [if_neg (show ¬ (m + 1 < 1) by omega)]
      intro hmem
      refine expand_loop_avoid store (m + 1) e0 _ _ _ ?_ ?_ n hmem
      · exact process_node_mem_seen store e0 _
      · intro n2 hn3
        rcases process_node_nodes store e0 _ n2 hn3 with h1 | ⟨_, _, h3, _⟩
        · simp at h1
        · exact h3

/-- Witness for C8 at a concrete store: b is returned as a node and its id
differs from the seed a. -/
theorem c8_first_seed_not_a_node_witness :
    (⟨"b", "b", "entity", []⟩ : GraphNode)
        ∈ (expand store_ab name_store_empty ("a" :: []) 1 []).nodes ∧
      (⟨"b", "b", "entity", []⟩ : GraphNode).id ≠ "a" :=
  ⟨by decide,
    c8_first_seed_not_a_node store_ab name_store_empty "a" [] 1 []
      ⟨"b", "b", "entity", []⟩ (by decide)⟩

/-! ### C4: the BFS depth bound -/

/-- C4: every node of the returned context is reachable from the seed id
set within `max_depth` hops of the neighbour relation induced by the graph
store's row answers. -/
theorem c4_bfs_depth_bound (store : String → List Row)
    (name_store : String → Option (List (String × String) × List String))
    (entity_ids : List String) (max_depth : Nat) (id_to_name : List (String × String)) :
    ∀ n ∈ (expand store name_store entity_ids max_depth id_to_name).nodes,
      ReachWithin store entity_ids max_depth n.id := by
  intro n hn
  have hn2 : n ∈ (expand_state store name_store entity_ids max_depth id_to_name).nodes := hn
  revert hn2
  unfold expand_state
  refine fun hmem => expand_loop_reach store max_depth entity_ids _ _ _ ?_ ?_ n hmem
  · intro pr hpr
    rcases List.mem_map.mp hpr with ⟨e, he, rfl⟩
    exact ⟨le_refl 1, List.take_subset 10 entity_ids he⟩
  · intro n2 hn3
    simp at hn3

/-- Witness for C4 at a concrete store: the returned node b is reachable
from the seed a within one hop. -/
theorem c4_bfs_depth_bound_witness :
    (⟨"b", "b", "entity", []⟩ : GraphNode)
        ∈ (expand store_ab name_store_empty ["a"] 1 []).nodes ∧
      ReachWithin store_ab ["a"] 1 (⟨"b", "b", "entity", []⟩ : GraphNode).id :=
  ⟨by decide,
    c4_bfs_depth_bound store_ab name_store_empty ["a"] 1 []
      ⟨"b", "b", "entity", []⟩ (by decide)⟩

/-! ### Adequacy of the fuel supplied to the BFS loop

These lemmas certify that the fuel chosen in `expand_state` is strictly
larger than the number of loop iterations any run can take, so the
fuel-based embedding coincides with the unbounded Python loop. -/

/-- An empty queue ends the loop for any fuel. -/
theorem expand_loop_nil (store : String → List Row) (max_depth : Nat) :
    ∀ fuel st, expand_loop store max_depth fuel [] st = st := by
  intro fuel st
  cases fuel with
  | zero => rfl
  | succ f => rfl

/-- The queue measure is additive. -/
theorem pending_measure_append (max_depth : Nat) (l1 l2 : List (String × Nat)) :
    pending_measure max_depth (l1 ++ l2)
      = pending_measure max_depth l1 + pending_measure max_depth l2 := by
  unfold pending_measure
  rw [List.map_append, List.sum_append]

/-- The measure of a same-depth batch is its size times the common weight. -/
theorem pending_measure_map_const (max_depth d : Nat) (l : List String) :
    pending_measure max_depth (l.map (fun n => (n, d)))
      = l.length * 16 ^ (max_depth + 1 - d) := by
  unfold pending_measure
  rw [List.map_map]
  induction l with
  | nil => simp
  | cons x xs ih =>
      simp only [List.map_cons, List.sum_cons, List.length_cons, ih, Function.comp]
      ring

/-- Any two sufficient fuels give the same loop result: the loop consumes
one unit per iteration and the queue measure strictly decreases, so a fuel
above the measure is never exhausted. -/
theorem expand_loop_fuel_irrelevant (store : String → List Row) (max_depth : Nat) :
    ∀ f1 f2 pending st, pending_measure max_depth pending < f1 →
      pending_measure max_depth pending < f2 →
      expand_loop store max_depth f1 pending st = expand_loop store max_depth f2 pending st := by
  intro f1
  induction f1 with
  | zero => intro f2 pending st h1; omega
  | succ a ih =>
      intro f2 pending st h1 h2
      cases pending with
      | nil => rw [expand_loop_nil, expand_loop_nil]
      | cons hd rest =>
          obtain ⟨vid, depth⟩ := hd
          cases f2 with
          | zero => omega
          | succ b =>
              have hsplit : pending_measure max_depth ((vid, depth) :: rest)
                  = 16 ^ (max_depth + 1 - depth) + pending_measure max_depth rest := by
                unfold pending_measure
                simp
              have hw : 1 ≤ 16 ^ (max_depth + 1 - depth) :=
                Nat.one_le_pow _ _ (by omega)
              simp only [expand_loop]
              by_cases hcut : max_depth < depth
              · simp only [if_pos hcut]
                exact ih b rest st (by omega) (by omega)
              · simp only [if_neg hcut]
                have hwsucc : 16 ^ (max_depth + 1 - depth)
                    = 16 * 16 ^ (max_depth - depth) := by
                  have hd2 : max_depth + 1 - depth = (max_depth - depth) + 1 := by omega
                  rw [hd2, pow_succ]
                  ring
                have hu : 1 ≤ 16 ^ (max_depth - depth) :=
                  Nat.one_le_pow _ _ (by omega)
                by_cases hlt : depth < max_depth
                · simp only [if_pos hlt]
                  have hbatch : pending_measure max_depth
                      ((((process_node store vid st).1.take 15).filter
                          (fun n => n ∉ (process_node store vid st).2.seen_nodes)).map
                        (fun n => (n, depth + 1)))
                      ≤ 15 * 16 ^ (max_depth - depth) := by
                    rw [pending_measure_map_const]
                    have hlen : (((process_node store vid st).1.take 15).filter
                        (fun n => n ∉ (process_node store vid st).2.seen_nodes)).length ≤ 15 := by
                      calc (((process_node store vid st).1.take 15).filter
                            (fun n => n ∉ (process_node store vid st).2.seen_nodes)).length
                          ≤ ((process_node store vid st).1.take 15).length :=
                            List.length_filter_le _ _
                        _ ≤ 15 := List.length_take_le _ _
                    have hd3 : max_depth + 1 - (depth + 1) = max_depth - depth := by omega
                    rw [hd3]
                    exact Nat.mul_le_mul_right _ hlen
                  have hm2 : pending_measure max_depth
                      (rest ++ (((process_node store vid st).1.take 15).filter
                          (fun n => n ∉ (process_node store vid st).2.seen_nodes)).map
                        (fun n => (n, depth + 1)))
                      = pending_measure max_depth rest + pending_measure max_depth
                          ((((process_node store vid st).1.take 15).filter
                            (fun n => n ∉ (process_node store vid st).2.seen_nodes)).map
                          (fun n => (n, depth + 1))) := pending_measure_append _ _ _
                  refine ih b _ _ ?_ ?_ <;> rw [hm2] <;> omega
                · simp only [if_neg hlt]
                  exact ih b rest _ (by omega) (by omega)

/-- The fuel `expand_state` supplies strictly exceeds the initial queue
measure, so the run is independent of the exact fuel: any fuel above the
initial measure produces the very same state. -/
theorem expand_state_fuel_independent (store : String → List Row)
    (name_store : String → Option (List (String × String) × List String))
    (entity_ids : List String) (max_depth : Nat) (id_to_name : List (String × String))
    (fuel : Nat) (h : (entity_ids.take 10).length * 16 ^ max_depth < fuel) :
    expand_loop store max_depth fuel ((entity_ids.take 10).map (fun e => (e, 1)))
        ⟨[], [], [], [],
          entity_ids.foldl
            (fun m eid =>
              if (lookup_str m eid).isSome then m
              else set_key m eid (get_entity_name name_store eid))
            id_to_name⟩
      = expand_state store name_store entity_ids max_depth id_to_name := by
  unfold expand_state
  have hm : pending_measure max_depth ((entity_ids.take 10).map (fun e => (e, 1)))
      = (entity_ids.take 10).length * 16 ^ max_depth := by
    rw [pending_measure_map_const]
    simp
  apply expand_loop_fuel_irrelevant
  · omega
  · unfold expand_fuel
    omega
